import Mathlib

/-
Verification of the knative test-infra `gcs` package
(vendor/github.com/knative/test-infra/shared/gcs/gcs.go) against its
natural-language specification.

The embedding models:
  * the Go standard library string and path helpers the package calls
    (strings.TrimRight, path.Join / path.Clean);
  * the GCS backend behaviour the package relies on (prefix/delimiter
    object queries, metadata fetches, readers and writers), as an
    explicit world state with injectable faults;
  * every exported operation of gcs.go (Exist, ListDirectChildren,
    Download, Upload, Read, NewReader) and the internal helpers
    (getObjectsAttrs iteration loop, list).

Paths and byte contents are character lists and Nat lists, so that every
definition is executable and every concrete statement can be settled by
kernel evaluation.
-/

namespace Gcs

/-- Paths and object names, as character lists (Go strings). -/
abbrev Str := List Char

/-- Byte contents of an object or a local file. -/
abbrev Bytes := List Nat

/-! ## Go standard library: strings.TrimRight, path.Clean, path.Join -/

/-- Embeds Go `strings.TrimRight(s, cutset)`: removes the trailing
characters of `s` that occur in `cutset`. -/
def trimRightGo (s : Str) (cutset : List Char) : Str :=
  ((s.reverse).dropWhile (fun c => decide (c ∈ cutset))).reverse

/-- Backtracking step of Go `path.Clean` for a ".." element: embeds
`out.w--; for out.w > dotdot && out.index(out.w) != '/' { out.w-- }`
with the output buffer kept in reversed order. -/
def popElem (dotdot : Nat) : Str → Str
  | [] => []
  | c :: rest => if rest.length > dotdot ∧ c ≠ '/' then popElem dotdot rest else rest

/-- Main loop of Go `path.Clean` (package `path`): processes the remaining
input, keeping the output buffer reversed; `dotdot` is the index the ".."
backtracking may not cross.  The fuel argument only bounds the recursion
depth; each step consumes at least one input character, so any fuel larger
than the remaining length never runs out. -/
def cleanCore (rooted : Bool) : Nat → Str → Str → Nat → Str
  | 0, _, revOut, _ => revOut
  | _ + 1, [], revOut, _ => revOut
  | fuel + 1, c :: rest, revOut, dotdot =>
    if c = '/' then
      cleanCore rooted fuel rest revOut dotdot
    else if c = '.' ∧ (rest = [] ∨ rest.head? = some '/') then
      cleanCore rooted fuel rest revOut dotdot
    else if c = '.' ∧ rest.head? = some '.' ∧ (rest.tail = [] ∨ rest.tail.head? = some '/') then
      (if revOut.length > dotdot then
        cleanCore rooted fuel rest.tail (popElem dotdot revOut) dotdot
      else if ¬ rooted then
        (if revOut.length > 0 then
          cleanCore rooted fuel rest.tail ('.' :: '.' :: '/' :: revOut) (revOut.length + 3)
        else
          cleanCore rooted fuel rest.tail ['.', '.'] 2)
      else
        cleanCore rooted fuel rest.tail revOut dotdot)
    else
      cleanCore rooted fuel ((c :: rest).dropWhile (fun x => x ≠ '/'))
        (((c :: rest).takeWhile (fun x => x ≠ '/')).reverse ++
          (if (rooted ∧ revOut.length ≠ 1) ∨ (¬ rooted ∧ revOut.length ≠ 0) then '/' :: revOut
           else revOut))
        dotdot

/-- Embeds Go `path.Clean`. -/
def clean (p : Str) : Str :=
  match p with
  | [] => ['.']
  | c :: rest =>
    let out :=
      if c = '/' then cleanCore true (rest.length + 1) rest ['/'] 1
      else cleanCore false (rest.length + 2) (c :: rest) [] 0
    if out.length = 0 then ['.'] else out.reverse

/-- Embeds Go `path.Join` on two components: the elements starting at the
first non-empty one are joined with "/" and cleaned; all-empty input gives
the empty string. -/
def joinGo (a b : Str) : Str :=
  if a = [] then (if b = [] then [] else clean b)
  else clean (a ++ '/' :: b)

/-! ## GCS backend: prefix/delimiter object queries -/

/-- Embeds `storage.ObjectAttrs` as the two fields gcs.go reads:
`pfx` is the `Prefix` component (set on synthetic prefix rows), `name` the
`Name` component (set on object rows). -/
structure ObjectAttrs where
  pfx : Str
  name : Str
deriving DecidableEq

/-- Index of the first occurrence of the (non-empty) pattern `d` as a
contiguous sublist of the argument. -/
def findSub (d : Str) : Str → Option Nat
  | [] => none
  | c :: rest => if d.isPrefixOf (c :: rest) then some 0 else (findSub d rest).map (· + 1)

/-- One result row of a GCS objects query, for an object name `n` matching
the query prefix: when the remainder of the name after the prefix contains
the delimiter, the name is truncated just after the delimiter's first
occurrence and reported as a synthetic prefix row; otherwise the object row
itself is reported. -/
def rowFor (pre delim : Str) (n : Str) : ObjectAttrs :=
  match findSub delim (n.drop pre.length) with
  | some i => ⟨pre ++ (n.drop pre.length).take (i + delim.length), []⟩
  | none => ⟨[], n⟩

/-- First-occurrence deduplication, structurally recursive over the input
with an accumulator of already-seen elements. -/
def dedupAux {α : Type} [DecidableEq α] : List α → List α → List α
  | [], _ => []
  | a :: rest, seen => if a ∈ seen then dedupAux rest seen else a :: dedupAux rest (a :: seen)

/-- First-occurrence deduplication. -/
def dedupF {α : Type} [DecidableEq α] (l : List α) : List α := dedupAux l []

/-- GCS semantics of `BucketHandle.Objects` with `Query{Prefix, Delimiter}`
over the bucket's object names: names are filtered by the prefix; an empty
delimiter lists every matching object flat; otherwise each name produces a
row and duplicate synthetic prefix rows are merged. -/
def queryRows (names : List Str) (pre delim : Str) : List ObjectAttrs :=
  if delim = [] then (names.filter fun n => pre.isPrefixOf n).map fun n => ⟨[], n⟩
  else dedupF ((names.filter fun n => pre.isPrefixOf n).map (rowFor pre delim))

/-! ## gcs.go listing -/

/-- One step of the storage iterator: an item, the `iterator.Done`
sentinel, or a non-Done iteration error. -/
inductive IterStep
  | item (a : ObjectAttrs)
  | done
  | fail
deriving DecidableEq

/-- Result of the iteration loop: the accumulated rows, or process death
(`log.Fatalf`). -/
inductive FetchResult (α : Type)
  | ok (a : α)
  | fatal
deriving DecidableEq

/-- The iteration loop of `getObjectsAttrs` (gcs.go lines 144-153):
accumulate items; the Done sentinel ends the loop normally; any other
iteration error aborts the process via `log.Fatalf`. -/
def getObjectsAttrsLoop : List IterStep → List ObjectAttrs → FetchResult (List ObjectAttrs)
  | [], acc => .ok acc
  | .item a :: rest, acc => getObjectsAttrsLoop rest (acc ++ [a])
  | .done :: _, acc => .ok acc
  | .fail :: _, _ => .fatal

/-- The step stream a healthy backend produces for a query: the query's
rows followed by the Done sentinel. -/
def iterSteps (names : List Str) (pre delim : Str) : List IterStep :=
  (queryRows names pre delim).map .item ++ [.done]

/-- Embeds gcs.go `getObjectsAttrs`: runs the iteration loop on the
backend's step stream. -/
def getObjectsAttrs (names : List Str) (pre delim : Str) : FetchResult (List ObjectAttrs) :=
  getObjectsAttrsLoop (iterSteps names pre delim) []

/-- Embeds gcs.go `list`: maps `path.Join(attrs.Prefix, attrs.Name)` over
the fetched rows. -/
def list (names : List Str) (pre delim : Str) : FetchResult (List Str) :=
  match getObjectsAttrs names pre delim with
  | .ok rows => .ok (rows.map fun a => joinGo a.pfx a.name)
  | .fatal => .fatal

/-- The query prefix `ListDirectChildren` issues:
`strings.TrimRight(storagePath, " /") + "/"`. -/
def ldcQueryPre (storagePath : Str) : Str :=
  trimRightGo storagePath [' ', '/'] ++ ['/']

/-- Embeds gcs.go `ListDirectChildren`: trailing spaces and slashes
trimmed, a single "/" appended, delimiter "/". -/
def ListDirectChildren (names : List Str) (storagePath : Str) : FetchResult (List Str) :=
  list names (ldcQueryPre storagePath) ['/']

/-! ## World state for Exist / Download / Upload / Read

The remote store and the local filesystem are explicit state; the faults
the underlying client can report (metadata-fetch errors, reader-open
errors, mid-stream read or write failures, writer close-time flush
failures, local open failures) are injectable per key, so that every
error path of gcs.go is reachable in the model.  Each operation also
records the stream events it performs, which is how release-on-all-paths
properties are stated. -/

/-- (bucket, path) pair addressing a remote object. -/
structure Key where
  bucket : Str
  path : Str
deriving DecidableEq

/-- Error values surfaced by the modelled client and filesystem. -/
inductive GErr
  | notFound
  | access
  | openErr
  | readErr
  | writeErr
deriving DecidableEq

/-- Stream events an operation performs, in order. -/
inductive Event
  | attrsFetch (k : Key)
  | openReader (k : Key)
  | closeReader (k : Key)
  | closeNilReader
  | openLocal (p : Str)
  | closeLocal (p : Str)
  | openWriter (k : Key)
  | closeWriter (k : Key)
deriving DecidableEq

/-- Outcome of an operation: a value, an error value, or a Go runtime
panic. -/
inductive Res (α : Type)
  | ok (a : α)
  | err (e : GErr)
  | panik
deriving DecidableEq

/-- The remote store, the local filesystem, and the injectable faults. -/
structure World where
  objects : List (Key × Bytes)
  attrsErr : List Key
  readerErr : List Key
  readErr : List Key
  localFiles : List (Str × Bytes)
  localOpenErr : List Str
  localWriteErr : List Str
  writeErr : List Key
  writerCloseErr : List Key
deriving DecidableEq

/-- Association-list lookup for remote objects. -/
def lookupK : List (Key × Bytes) → Key → Option Bytes
  | [], _ => none
  | (k, v) :: rest, k2 => if k = k2 then some v else lookupK rest k2

/-- Association-list lookup for local files. -/
def lookupS : List (Str × Bytes) → Str → Option Bytes
  | [], _ => none
  | (p, v) :: rest, q => if p = q then some v else lookupS rest q

/-- `ObjectHandle.Attrs` metadata fetch: an injected access fault or a
missing object yields an error, otherwise success. -/
def attrs (w : World) (k : Key) : Except GErr Unit :=
  if k ∈ w.attrsErr then .error .access
  else if (lookupK w.objects k).isSome then .ok () else .error .notFound

/-- Embeds gcs.go `Exist` (lines 45-49): one metadata fetch, the boolean
`nil == err`, no error detail. -/
def Exist (w : World) (bucketName filePath : Str) : Bool × List Event :=
  match attrs w ⟨bucketName, filePath⟩ with
  | .ok _ => (true, [.attrsFetch ⟨bucketName, filePath⟩])
  | .error _ => (false, [.attrsFetch ⟨bucketName, filePath⟩])

/-- Embeds gcs.go `NewReader` (lines 121-127): an Attrs check, then
`ObjectHandle.NewReader`, which can itself fail without opening anything. -/
def NewReader (w : World) (bucketName filePath : Str) : Res Unit × List Event :=
  match attrs w ⟨bucketName, filePath⟩ with
  | .error e => (.err e, [.attrsFetch ⟨bucketName, filePath⟩])
  | .ok _ =>
    if (⟨bucketName, filePath⟩ : Key) ∈ w.readerErr then
      (.err .openErr, [.attrsFetch ⟨bucketName, filePath⟩])
    else (.ok (), [.attrsFetch ⟨bucketName, filePath⟩, .openReader ⟨bucketName, filePath⟩])

/-- `ioutil.ReadAll` on an open reader for `k`. -/
def readAll (w : World) (k : Key) : Except GErr Bytes :=
  if k ∈ w.readErr then .error .readErr
  else match lookupK w.objects k with
    | some bs => .ok bs
    | none => .error .readErr

/-- Embeds gcs.go `Read` (lines 105-117).  The source defers `f.Close()`
before checking the error from `NewReader`; when `NewReader` failed the
returned reader is nil and the deferred `Close` dereferences a nil
`*storage.Reader`, so the function panics instead of returning the
error. -/
def Read (w : World) (bucketName filePath : Str) : Res Bytes × List Event :=
  match NewReader w bucketName filePath with
  | (.err _, evs) => (.panik, evs ++ [.closeNilReader])
  | (.panik, evs) => (.panik, evs)
  | (.ok _, evs) =>
    match readAll w ⟨bucketName, filePath⟩ with
    | .error e => (.err e, evs ++ [.closeReader ⟨bucketName, filePath⟩])
    | .ok bs => (.ok bs, evs ++ [.closeReader ⟨bucketName, filePath⟩])

/-- `os.OpenFile(p, O_RDWR|O_CREATE, 0755)`: creates an empty file when
none exists, otherwise leaves the contents alone. -/
def openFileCreate (w : World) (p : Str) : World :=
  if (lookupS w.localFiles p).isSome then w
  else { w with localFiles := (p, []) :: w.localFiles }

/-- Writing `bs` into local file `p` from offset 0 without truncation
(the O_RDWR|O_CREATE open mode): a longer pre-existing tail survives. -/
def writeLocalAt0 (w : World) (p : Str) (bs : Bytes) : World :=
  { w with localFiles := w.localFiles.map fun q => if q.1 = p then (q.1, bs ++ q.2.drop bs.length) else q }

/-- Embeds gcs.go `Download` (lines 69-88): Attrs probe, local
`os.OpenFile`, remote `NewReader` (with deferred Close), `io.Copy`.
Only the remote reader is ever closed; the local file handle is not
closed on any path. -/
def Download (w : World) (bucketName srcPath dstPath : Str) : Res Unit × World × List Event :=
  match attrs w ⟨bucketName, srcPath⟩ with
  | .error e => (.err e, w, [.attrsFetch ⟨bucketName, srcPath⟩])
  | .ok _ =>
    if dstPath ∈ w.localOpenErr then (.err .openErr, w, [.attrsFetch ⟨bucketName, srcPath⟩])
    else
      if (⟨bucketName, srcPath⟩ : Key) ∈ w.readerErr then
        (.err .openErr, openFileCreate w dstPath,
          [.attrsFetch ⟨bucketName, srcPath⟩, .openLocal dstPath])
      else if (⟨bucketName, srcPath⟩ : Key) ∈ w.readErr then
        (.err .readErr, openFileCreate w dstPath,
          [.attrsFetch ⟨bucketName, srcPath⟩, .openLocal dstPath,
            .openReader ⟨bucketName, srcPath⟩, .closeReader ⟨bucketName, srcPath⟩])
      else if dstPath ∈ w.localWriteErr then
        (.err .writeErr, openFileCreate w dstPath,
          [.attrsFetch ⟨bucketName, srcPath⟩, .openLocal dstPath,
            .openReader ⟨bucketName, srcPath⟩, .closeReader ⟨bucketName, srcPath⟩])
      else
        match lookupK w.objects ⟨bucketName, srcPath⟩ with
        | some bs =>
          (.ok (), writeLocalAt0 (openFileCreate w dstPath) dstPath bs,
            [.attrsFetch ⟨bucketName, srcPath⟩, .openLocal dstPath,
              .openReader ⟨bucketName, srcPath⟩, .closeReader ⟨bucketName, srcPath⟩])
        | none =>
          (.err .readErr, openFileCreate w dstPath,
            [.attrsFetch ⟨bucketName, srcPath⟩, .openLocal dstPath,
              .openReader ⟨bucketName, srcPath⟩, .closeReader ⟨bucketName, srcPath⟩])

/-- Embeds gcs.go `Upload` (lines 91-102): local `os.Open`,
`ObjectHandle.NewWriter` (creation itself never fails), deferred writer
`Close` whose error is discarded, `io.Copy`.  The object is committed
only when the close-time flush succeeds, yet a flush failure does not
change the returned value; the local source handle is not closed on any
path. -/
def Upload (w : World) (bucketName dstPath srcPath : Str) : Res Unit × World × List Event :=
  match lookupS w.localFiles srcPath with
  | none => (.err .openErr, w, [])
  | some bs =>
    if srcPath ∈ w.localOpenErr then (.err .openErr, w, [])
    else if (⟨bucketName, dstPath⟩ : Key) ∈ w.writeErr then
      (.err .writeErr, w,
        [.openLocal srcPath, .openWriter ⟨bucketName, dstPath⟩, .closeWriter ⟨bucketName, dstPath⟩])
    else if (⟨bucketName, dstPath⟩ : Key) ∈ w.writerCloseErr then
      (.ok (), w,
        [.openLocal srcPath, .openWriter ⟨bucketName, dstPath⟩, .closeWriter ⟨bucketName, dstPath⟩])
    else
      (.ok (), { w with objects := (⟨bucketName, dstPath⟩, bs) :: w.objects },
        [.openLocal srcPath, .openWriter ⟨bucketName, dstPath⟩, .closeWriter ⟨bucketName, dstPath⟩])

/-- The world with no objects, no local files and no injected faults. -/
def emptyWorld : World := ⟨[], [], [], [], [], [], [], [], []⟩

/-- A world holding one remote object b/o with two bytes. -/
def wObjBO : World := { emptyWorld with objects := [(⟨("b".data), ("o".data)⟩, [1, 2])] }

/-- A world holding one local file "s" with one byte. -/
def wLocS : World := { emptyWorld with localFiles := [(("s".data), [3])] }

/-- A world where object b/q exists but its metadata fetch hits an
injected access fault. -/
def wAccessQ : World :=
  { emptyWorld with objects := [(⟨("b".data), ("q".data)⟩, [1])], attrsErr := [⟨("b".data), ("q".data)⟩] }

/-- A world with a local file "s" whose upload destination b/p suffers an
injected close-time flush fault. -/
def wFlushFail : World :=
  { emptyWorld with localFiles := [(("s".data), [3])], writerCloseErr := [⟨("b".data), ("p".data)⟩] }

/-- The item carried by an iterator step, if any. -/
def itemVal : IterStep → Option ObjectAttrs
  | .item a => some a
  | .done => none
  | .fail => none

/-- Collapses runs of '/' into a single '/', altering nothing else. -/
def collapseSlashes : Str → Str
  | [] => []
  | [c] => [c]
  | c :: c2 :: rest =>
    if c = '/' ∧ c2 = '/' then collapseSlashes (c2 :: rest)
    else c :: collapseSlashes (c2 :: rest)

/-- Follows the spec's words for the path join (for comparison with the
code's `path.Join`): the prefix and name components joined with "/"
separators and redundant separators collapsed, nothing else altered. -/
def specJoinCollapsed (a b : Str) : Str :=
  if a = [] then collapseSlashes b
  else if b = [] then collapseSlashes a
  else collapseSlashes (a ++ '/' :: b)

/-! ## Helper lemmas -/

lemma getObjectsAttrsLoop_ok (rows : List ObjectAttrs) :
    ∀ acc, getObjectsAttrsLoop (rows.map .item ++ [.done]) acc = .ok (acc ++ rows) := by
  induction rows with
  | nil => intro acc; simp [getObjectsAttrsLoop]
  | cons a rest ih =>
    intro acc
    simp only [List.map_cons, List.cons_append, getObjectsAttrsLoop, List.append_eq]
    rw [ih]
    simp

lemma getObjectsAttrs_eq (names : List Str) (pre delim : Str) :
    getObjectsAttrs names pre delim = .ok (queryRows names pre delim) := by
  simpa [getObjectsAttrs, iterSteps] using getObjectsAttrsLoop_ok (queryRows names pre delim) []

lemma list_eq (names : List Str) (pre delim : Str) :
    list names pre delim = .ok ((queryRows names pre delim).map fun a => joinGo a.pfx a.name) := by
  simp [list, getObjectsAttrs_eq]

lemma filter_idem {α : Type} (p : α → Bool) (l : List α) :
    (l.filter p).filter p = l.filter p := by
  induction l with
  | nil => rfl
  | cons a rest ih =>
    by_cases h : p a <;> simp [List.filter_cons, h, ih]

lemma mem_dedupAux {α : Type} [DecidableEq α] (l : List α) :
    ∀ seen a, a ∈ dedupAux l seen ↔ a ∈ l ∧ a ∉ seen := by
  induction l with
  | nil => intro seen a; simp [dedupAux]
  | cons b rest ih =>
    intro seen a
    by_cases hb : b ∈ seen
    · simp only [dedupAux, if_pos hb, ih, List.mem_cons]
      constructor
      · rintro ⟨h1, h2⟩
        exact ⟨Or.inr h1, h2⟩
      · rintro ⟨rfl | h1, h2⟩
        · exact absurd hb h2
        · exact ⟨h1, h2⟩
    · simp only [dedupAux, if_neg hb, List.mem_cons, ih]
      by_cases hab : a = b
      · subst hab
        simp [hb]
      · simp [hab]

lemma mem_dedupF {α : Type} [DecidableEq α] (l : List α) (a : α) :
    a ∈ dedupF l ↔ a ∈ l := by
  simp [dedupF, mem_dedupAux]

lemma findSub_slash_none (s : Str) : findSub ['/'] s = none ↔ '/' ∉ s := by
  induction s with
  | nil => simp [findSub]
  | cons c rest ih =>
    by_cases hc : c = '/'
    · subst hc
      simp [findSub, List.isPrefixOf]
    · simp [findSub, List.isPrefixOf, hc, ih, Ne.symm hc]

lemma findSub_slash_append (s t : Str) (h : '/' ∉ s) :
    findSub ['/'] (s ++ '/' :: t) = some s.length := by
  induction s with
  | nil => simp [findSub, List.isPrefixOf]
  | cons c rest ih =>
    have hc : ¬ (c = '/') := fun hcc => h (hcc ▸ List.mem_cons_self _ _)
    have hr : '/' ∉ rest := fun hrr => h (List.mem_cons_of_mem _ hrr)
    simp [findSub, List.isPrefixOf, Ne.symm hc, ih hr]

lemma findSub_slash_some (s : Str) :
    ∀ i, findSub ['/'] s = some i → ∃ u v, s = u ++ '/' :: v ∧ u.length = i ∧ '/' ∉ u := by
  induction s with
  | nil => intro i h; simp [findSub] at h
  | cons c rest ih =>
    intro i h
    by_cases hc : c = '/'
    · subst hc
      simp [findSub, List.isPrefixOf] at h
      exact ⟨[], rest, by simp, by simp [← h], by simp⟩
    · simp [findSub, List.isPrefixOf, Ne.symm hc] at h
      obtain ⟨j, hj, rfl⟩ := h
      obtain ⟨u, v, rfl, rfl, hu⟩ := ih j hj
      refine ⟨c :: u, v, by simp, by simp, ?_⟩
      intro hmem
      rcases List.mem_cons.mp hmem with rfl | hmem2
      · exact hc rfl
      · exact hu hmem2

lemma rowFor_slash_flat (pre n : Str) (h : '/' ∉ n.drop pre.length) :
    rowFor pre ['/'] n = ⟨[], n⟩ := by
  simp [rowFor, (findSub_slash_none _).mpr h]

lemma rowFor_slash_nested (pre n s t : Str) (hn : n.drop pre.length = s ++ '/' :: t)
    (hs : '/' ∉ s) : rowFor pre ['/'] n = ⟨pre ++ s ++ ['/'], []⟩ := by
  have htake : (s ++ '/' :: t).take (s.length + 1) = s ++ ['/'] := by
    rw [List.take_append_eq_append_take]
    simp
  simp [rowFor, hn, findSub_slash_append s t hs, htake]

lemma dropWhile_append_all {p : Char → Bool} (l₁ l₂ : List Char)
    (h : ∀ c ∈ l₁, p c = true) :
    (l₁ ++ l₂).dropWhile p = l₂.dropWhile p := by
  induction l₁ with
  | nil => simp
  | cons c rest ih =>
    have hc := h c (List.mem_cons_self _ _)
    simp only [List.cons_append, List.dropWhile_cons, hc, if_pos]
    exact ih fun x hx => h x (List.mem_cons_of_mem _ hx)

lemma trimRightGo_strip (p junk : Str) (hj : ∀ c ∈ junk, c = ' ' ∨ c = '/')
    (hp : ∀ c, p.getLast? = some c → ¬(c = ' ' ∨ c = '/')) :
    trimRightGo (p ++ junk) [' ', '/'] = p := by
  unfold trimRightGo
  rw [List.reverse_append]
  rw [dropWhile_append_all _ _ (fun c hc => by
    rcases hj c (List.mem_reverse.mp hc) with rfl | rfl <;> decide)]
  cases hrev : p.reverse with
  | nil =>
    have : p = [] := by simpa using congrArg List.reverse hrev
    simp [this]
  | cons c cs =>
    have hlast : p.getLast? = some c := by
      rw [← List.head?_reverse, hrev]
      rfl
    have hnot := hp c hlast
    have hpred : (decide (c ∈ ([' ', '/'] : List Char))) = false := by
      simp only [decide_eq_false_iff_not, List.mem_cons, List.mem_singleton]
      simpa using hnot
    rw [List.dropWhile_cons]
    simp only [hpred, Bool.false_eq_true, if_false]
    rw [← hrev, List.reverse_reverse]

lemma ldcQueryPre_strip (p junk : Str) (hj : ∀ c ∈ junk, c = ' ' ∨ c = '/')
    (hp : ∀ c, p.getLast? = some c → ¬(c = ' ' ∨ c = '/')) :
    ldcQueryPre (p ++ junk) = p ++ ['/'] := by
  rw [ldcQueryPre, trimRightGo_strip p junk hj hp]

lemma queryRows_filter (names : List Str) (P : Str) :
    queryRows (names.filter fun n => P.isPrefixOf n) P ['/'] = queryRows names P ['/'] := by
  simp only [queryRows]
  rw [if_neg (by decide), if_neg (by decide), filter_idem]

/-- Sanity evaluations of the Go path.Clean and path.Join embeddings on
the representative inputs: separator collapse, dot-segment resolution,
trailing-separator removal, and the two join shapes gcs.go produces
(object rows with empty prefix, synthetic prefix rows with empty name). -/
lemma clean_join_eval :
    clean ("a//b".data) = ("a/b".data)
    ∧ clean ("a/../b".data) = ("b".data)
    ∧ clean ("a/./b".data) = ("a/b".data)
    ∧ clean ("foo/bar/".data) = ("foo/bar".data)
    ∧ joinGo [] ("d/".data) = ("d".data)
    ∧ joinGo ("foo/bar/".data) [] = ("foo/bar".data) := by
  decide

/-! ## Claim theorems -/

/-- C1: evaluating `Read` at a failing input — a (bucket, path) with no
object behind it.  `NewReader` returns an error, and the deferred
`f.Close()` placed before the error check then dereferences the nil
reader: `Read` panics instead of returning the error value the claim
(and the code's own `return contents, err` line) promises. -/
theorem gcs_C1_bug :
    Read emptyWorld ("b".data) ("missing".data)
      = (.panik, [Event.attrsFetch ⟨("b".data), ("missing".data)⟩, Event.closeNilReader]) := by
  decide

/-- C2 counterexample: on a plain successful `Download`, the local
destination file handle is opened but never closed, so it is false that
every stream opened by an operation is released on every exit path. -/
theorem gcs_C2_cex :
    Event.openLocal ("d".data) ∈ (Download wObjBO ("b".data) ("o".data) ("d".data)).2.2
      ∧ Event.closeLocal ("d".data) ∉ (Download wObjBO ("b".data) ("o".data) ("d".data)).2.2 := by
  decide

/-- C2 amended: the remote streams — the reader opened by Download and by
Read, and the writer opened by Upload — are released on every exit path on
which they were opened, including error exits; the local file handles
opened by Download and Upload are never closed on any path. -/
theorem gcs_C2_amended (w : World) (b s d sp : Str) :
    (Event.openReader ⟨b, s⟩ ∈ (Download w b s d).2.2 →
      Event.closeReader ⟨b, s⟩ ∈ (Download w b s d).2.2)
    ∧ (∀ q, Event.closeLocal q ∉ (Download w b s d).2.2)
    ∧ (Event.openWriter ⟨b, s⟩ ∈ (Upload w b s sp).2.2 →
      Event.closeWriter ⟨b, s⟩ ∈ (Upload w b s sp).2.2)
    ∧ (∀ q, Event.closeLocal q ∉ (Upload w b s sp).2.2)
    ∧ (Event.openReader ⟨b, s⟩ ∈ (Read w b s).2 →
      Event.closeReader ⟨b, s⟩ ∈ (Read w b s).2) := by
  refine ⟨?_, ?_, ?_, ?_, ?_⟩
  · cases hA : attrs w ⟨b, s⟩ with
    | error e => simp [Download, hA]
    | ok u =>
      by_cases h1 : d ∈ w.localOpenErr
      · simp [Download, hA, h1]
      · by_cases h2 : (⟨b, s⟩ : Key) ∈ w.readerErr
        · simp [Download, hA, h1, h2]
        · by_cases h3 : (⟨b, s⟩ : Key) ∈ w.readErr
          · simp [Download, hA, h1, h2, h3]
          · by_cases h4 : d ∈ w.localWriteErr
            · simp [Download, hA, h1, h2, h3, h4]
            · cases hL : lookupK w.objects ⟨b, s⟩ <;>
                simp [Download, hA, h1, h2, h3, h4, hL]
  · intro q
    cases hA : attrs w ⟨b, s⟩ with
    | error e => simp [Download, hA]
    | ok u =>
      by_cases h1 : d ∈ w.localOpenErr
      · simp [Download, hA, h1]
      · by_cases h2 : (⟨b, s⟩ : Key) ∈ w.readerErr
        · simp [Download, hA, h1, h2]
        · by_cases h3 : (⟨b, s⟩ : Key) ∈ w.readErr
          · simp [Download, hA, h1, h2, h3]
          · by_cases h4 : d ∈ w.localWriteErr
            · simp [Download, hA, h1, h2, h3, h4]
            · cases hL : lookupK w.objects ⟨b, s⟩ <;>
                simp [Download, hA, h1, h2, h3, h4, hL]
  · cases hL : lookupS w.localFiles sp with
    | none => simp [Upload, hL]
    | some bs =>
      by_cases h1 : sp ∈ w.localOpenErr
      · simp [Upload, hL, h1]
      · by_cases h2 : (⟨b, s⟩ : Key) ∈ w.writeErr
        · simp [Upload, hL, h1, h2]
        · by_cases h3 : (⟨b, s⟩ : Key) ∈ w.writerCloseErr <;>
            simp [Upload, hL, h1, h2, h3]
  · intro q
    cases hL : lookupS w.localFiles sp with
    | none => simp [Upload, hL]
    | some bs =>
      by_cases h1 : sp ∈ w.localOpenErr
      · simp [Upload, hL, h1]
      · by_cases h2 : (⟨b, s⟩ : Key) ∈ w.writeErr
        · simp [Upload, hL, h1, h2]
        · by_cases h3 : (⟨b, s⟩ : Key) ∈ w.writerCloseErr <;>
            simp [Upload, hL, h1, h2, h3]
  · cases hA : attrs w ⟨b, s⟩ with
    | error e => simp [Read, NewReader, hA]
    | ok u =>
      by_cases h2 : (⟨b, s⟩ : Key) ∈ w.readerErr
      · simp [Read, NewReader, hA, h2]
      · cases hR : readAll w ⟨b, s⟩ <;> simp [Read, NewReader, hA, h2, hR]

/-- C2 witness: the amended statement applied to a concrete world in which
Download succeeds (reader released, local handle leaked) and Upload
succeeds (writer released). -/
theorem gcs_C2_witness :
    Event.closeReader ⟨("b".data), ("o".data)⟩
        ∈ (Download wObjBO ("b".data) ("o".data) ("d".data)).2.2
      ∧ Event.closeLocal ("d".data) ∉ (Download wObjBO ("b".data) ("o".data) ("d".data)).2.2
      ∧ Event.closeWriter ⟨("b".data), ("o".data)⟩
        ∈ (Upload wLocS ("b".data) ("o".data) ("s".data)).2.2 := by
  refine ⟨?_, ?_, ?_⟩
  · exact (gcs_C2_amended wObjBO ("b".data) ("o".data) ("d".data) ("s".data)).1 (by decide)
  · exact (gcs_C2_amended wObjBO ("b".data) ("o".data) ("d".data) ("s".data)).2.1 ("d".data)
  · exact (gcs_C2_amended wLocS ("b".data) ("o".data) ("d".data) ("s".data)).2.2.1 (by decide)

/-- C3: `Exist` performs exactly one metadata fetch and returns a bare
boolean: true exactly when the fetch succeeds, false both for a genuinely
absent object and for an injected access fault. -/
theorem gcs_C3 (w : World) (b p : Str) :
    (Exist w b p).2 = [Event.attrsFetch ⟨b, p⟩]
    ∧ ((Exist w b p).1 = true ↔ attrs w ⟨b, p⟩ = .ok ())
    ∧ (lookupK w.objects ⟨b, p⟩ = none → (Exist w b p).1 = false)
    ∧ ((⟨b, p⟩ : Key) ∈ w.attrsErr → (Exist w b p).1 = false) := by
  cases hA : attrs w ⟨b, p⟩ with
  | ok u =>
    cases u
    refine ⟨by simp [Exist, hA], by simp [Exist, hA], ?_, ?_⟩
    · intro hnone
      by_cases hmem : (⟨b, p⟩ : Key) ∈ w.attrsErr <;> simp [attrs, hmem, hnone] at hA
    · intro hmem
      simp [attrs, hmem] at hA
  | error e =>
    exact ⟨by simp [Exist, hA], by simp [Exist, hA],
      fun _ => by simp [Exist, hA], fun _ => by simp [Exist, hA]⟩

/-- C3 witness: false for an absent object, and false for an object that
exists but whose metadata fetch hits an injected access fault. -/
theorem gcs_C3_witness :
    (Exist emptyWorld ("b".data) ("p".data)).1 = false
      ∧ (Exist wAccessQ ("b".data) ("q".data)).1 = false := by
  constructor
  · exact (gcs_C3 emptyWorld ("b".data) ("p".data)).2.2.1 (by decide)
  · exact (gcs_C3 wAccessQ ("b".data) ("q".data)).2.2.2 (by decide)

/-- C4: for a path without a trailing separator, the listing of direct
children is unchanged when the store is restricted to the objects whose
names extend the trimmed path through an explicit '/' at the junction —
objects that merely share the path as a string prefix without that
separator boundary (such as everything under a sibling "foobar" when
listing "foo") contribute nothing; concretely, listing "foo" over a store
holding "foo/a", "foobar" and "foobar/b" returns only "foo/a". -/
theorem gcs_C4 (names : List Str) (p : Str) (h : p.getLast? ≠ some '/') :
    ListDirectChildren names p
      = ListDirectChildren (names.filter fun n => (ldcQueryPre p).isPrefixOf n) p
    ∧ ListDirectChildren [("foo/a".data), ("foobar".data), ("foobar/b".data)] ("foo".data)
      = .ok [("foo/a".data)] := by
  constructor
  · rw [ListDirectChildren, ListDirectChildren, list_eq, list_eq, queryRows_filter]
  · decide

/-- C4 witness: the general part applied to the concrete store
{"foo/a", "foobar", "foobar/b"} at path "foo". -/
theorem gcs_C4_witness :
    ListDirectChildren [("foo/a".data), ("foobar".data), ("foobar/b".data)] ("foo".data)
      = ListDirectChildren
          ([("foo/a".data), ("foobar".data), ("foobar/b".data)].filter
            fun n => (ldcQueryPre ("foo".data)).isPrefixOf n) ("foo".data) :=
  (gcs_C4 [("foo/a".data), ("foobar".data), ("foobar/b".data)] ("foo".data) (by decide)).1

/-- C5 counterexample: the claim's join — "/"-separated with redundant
separators collapsed and nothing else altered — does not match the code's
result, because the code applies `path.Join`, which also resolves dot
segments.  For the store {"a/../b"}, listed with prefix "" and delimiter
"", the single row is the object "a/../b", the code returns "b", and the
collapse-only join returns "a/../b". -/
theorem gcs_C5_cex :
    queryRows [("a/../b".data)] [] [] = [⟨[], ("a/../b".data)⟩]
    ∧ list [("a/../b".data)] [] [] = .ok [("b".data)]
    ∧ specJoinCollapsed [] ("a/../b".data) = ("a/../b".data)
    ∧ ("b".data) ≠ ("a/../b".data) := by
  decide

/-- C5 amended: with delimiter "" the query returns exactly the object
rows whose names carry the prefix (arbitrarily nested, no synthetic
prefix rows); with delimiter "/" it returns exactly the immediate
children — object rows whose remainder after the prefix contains no "/",
plus one synthetic prefix row per distinct first-level sub-prefix, never
a deeper descendant; and each listed path is Go `path.Join` applied to
the row's prefix and name components ("/"-joined and cleaned: redundant
separators collapsed, dot segments resolved, trailing separator
dropped). -/
theorem gcs_C5_amended (names : List Str) (pre : Str) :
    (∀ a : ObjectAttrs, a ∈ queryRows names pre []
        ↔ ∃ n, n ∈ names ∧ pre.isPrefixOf n ∧ a = ⟨[], n⟩)
    ∧ (∀ a : ObjectAttrs, a ∈ queryRows names pre ['/']
        ↔ ((∃ n, n ∈ names ∧ pre.isPrefixOf n ∧ '/' ∉ n.drop pre.length ∧ a = ⟨[], n⟩)
           ∨ (∃ s, '/' ∉ s ∧ a = ⟨pre ++ s ++ ['/'], []⟩
               ∧ ∃ n t, n ∈ names ∧ pre.isPrefixOf n ∧ n.drop pre.length = s ++ '/' :: t)))
    ∧ (∀ delim, list names pre delim
        = .ok ((queryRows names pre delim).map fun a => joinGo a.pfx a.name)) := by
  have hq1 : queryRows names pre []
      = (names.filter fun n => pre.isPrefixOf n).map (fun n => (⟨[], n⟩ : ObjectAttrs)) := rfl
  have hq2 : queryRows names pre ['/']
      = dedupF ((names.filter fun n => pre.isPrefixOf n).map (rowFor pre ['/'])) := rfl
  refine ⟨?_, ?_, fun delim => list_eq names pre delim⟩
  · intro a
    rw [hq1]
    simp only [List.mem_map, List.mem_filter]
    constructor
    · rintro ⟨n, ⟨hn, hp⟩, rfl⟩
      exact ⟨n, hn, hp, rfl⟩
    · rintro ⟨n, hn, hp, rfl⟩
      exact ⟨n, ⟨hn, hp⟩, rfl⟩
  · intro a
    rw [hq2, mem_dedupF]
    simp only [List.mem_map, List.mem_filter]
    constructor
    · rintro ⟨n, ⟨hn, hp⟩, hrow⟩
      by_cases hsl : '/' ∈ n.drop pre.length
      · cases hfs : findSub ['/'] (n.drop pre.length) with
        | none => exact absurd ((findSub_slash_none _).mp hfs) (fun hc => hc hsl)
        | some i =>
          obtain ⟨u, v, huv, hlen, hu⟩ := findSub_slash_some _ i hfs
          right
          refine ⟨u, hu, ?_, n, v, hn, hp, huv⟩
          rw [rowFor_slash_nested pre n u v huv hu] at hrow
          exact hrow.symm
      · left
        refine ⟨n, hn, hp, hsl, ?_⟩
        rw [rowFor_slash_flat pre n hsl] at hrow
        exact hrow.symm
    · rintro (⟨n, hn, hp, hflat, rfl⟩ | ⟨s, hs, rfl, n, t, hn, hp, hdec⟩)
      · exact ⟨n, ⟨hn, hp⟩, rowFor_slash_flat pre n hflat⟩
      · exact ⟨n, ⟨hn, hp⟩, rowFor_slash_nested pre n s t hdec hs⟩

/-- C5 witness: the flat-mode characterization applied to the store {"x"}
with prefix "". -/
theorem gcs_C5_witness :
    (⟨[], ("x".data)⟩ : ObjectAttrs) ∈ queryRows [("x".data)] [] [] :=
  ((gcs_C5_amended [("x".data)] []).1 ⟨[], ("x".data)⟩).mpr
    ⟨("x".data), by decide, by decide, rfl⟩

/-- C6: during iteration, a non-Done error is fatal to the process (never
an ok result, partial or otherwise), while the Done sentinel ends the loop
normally with exactly the items accumulated so far. -/
theorem gcs_C6 (pre post : List IterStep) (acc : List ObjectAttrs)
    (h : ∀ s ∈ pre, ∃ a, s = IterStep.item a) :
    getObjectsAttrsLoop (pre ++ IterStep.fail :: post) acc = .fatal
    ∧ getObjectsAttrsLoop (pre ++ IterStep.done :: post) acc
        = .ok (acc ++ pre.filterMap itemVal) := by
  revert h
  induction pre generalizing acc with
  | nil =>
    intro h
    simp [getObjectsAttrsLoop]
  | cons s rest ih =>
    intro h
    obtain ⟨a, rfl⟩ := h s (List.mem_cons_self _ _)
    have hrest : ∀ x ∈ rest, ∃ b, x = IterStep.item b :=
      fun x hx => h x (List.mem_cons_of_mem _ hx)
    constructor
    · have := (ih (acc ++ [a]) hrest).1
      simpa [getObjectsAttrsLoop] using this
    · have := (ih (acc ++ [a]) hrest).2
      simp only [List.cons_append, getObjectsAttrsLoop, List.filterMap_cons, itemVal,
        List.append_eq]
      rw [this]
      simp

/-- C6 witness: one item then a hard error is fatal; one item then Done
returns that single item. -/
theorem gcs_C6_witness :
    getObjectsAttrsLoop [IterStep.item ⟨[], []⟩, IterStep.fail] [] = .fatal
    ∧ getObjectsAttrsLoop [IterStep.item ⟨[], []⟩, IterStep.done] []
        = .ok [⟨[], []⟩] := by
  have h := gcs_C6 [IterStep.item ⟨[], []⟩] [] []
    (fun s hs => ⟨⟨[], []⟩, List.mem_singleton.mp hs⟩)
  simpa using h

/-- C7: Download's first action is the metadata probe of the source
object, and when that probe fails Download returns the probe's error with
the world unchanged and no local open performed — no destination file is
created at all. -/
theorem gcs_C7 (w : World) (b s d : Str) :
    ((Download w b s d).2.2.head? = some (Event.attrsFetch ⟨b, s⟩))
    ∧ (∀ e, attrs w ⟨b, s⟩ = .error e →
        Download w b s d = (.err e, w, [Event.attrsFetch ⟨b, s⟩])
        ∧ Event.openLocal d ∉ (Download w b s d).2.2) := by
  constructor
  · cases hA : attrs w ⟨b, s⟩ with
    | error e => simp [Download, hA]
    | ok u =>
      by_cases h1 : d ∈ w.localOpenErr
      · simp [Download, hA, h1]
      · by_cases h2 : (⟨b, s⟩ : Key) ∈ w.readerErr
        · simp [Download, hA, h1, h2]
        · by_cases h3 : (⟨b, s⟩ : Key) ∈ w.readErr
          · simp [Download, hA, h1, h2, h3]
          · by_cases h4 : d ∈ w.localWriteErr
            · simp [Download, hA, h1, h2, h3, h4]
            · cases hL : lookupK w.objects ⟨b, s⟩ <;>
                simp [Download, hA, h1, h2, h3, h4, hL]
  · intro e he
    exact ⟨by simp [Download, he], by simp [Download, he]⟩

/-- C7 witness: downloading the missing object b/s in the empty world
returns notFound, leaves the world unchanged, and performs only the
metadata probe. -/
theorem gcs_C7_witness :
    Download emptyWorld ("b".data) ("s".data) ("d".data)
      = (.err .notFound, emptyWorld, [Event.attrsFetch ⟨("b".data), ("s".data)⟩]) :=
  ((gcs_C7 emptyWorld ("b".data) ("s".data) ("d".data)).2 .notFound rfl).1

/-- C8: Upload closes the remote writer on every exit path on which it was
opened (including a mid-stream copy failure), and a close-time flush
failure after a successful byte-copy does not change the returned value —
Upload still reports success. -/
theorem gcs_C8 (w : World) (b d s : Str) (bs : Bytes) :
    (Event.openWriter ⟨b, d⟩ ∈ (Upload w b d s).2.2 →
      Event.closeWriter ⟨b, d⟩ ∈ (Upload w b d s).2.2)
    ∧ (lookupS w.localFiles s = some bs → s ∉ w.localOpenErr →
        (⟨b, d⟩ : Key) ∉ w.writeErr → (⟨b, d⟩ : Key) ∈ w.writerCloseErr →
        (Upload w b d s).1 = Res.ok ()) := by
  constructor
  · cases hL : lookupS w.localFiles s with
    | none => simp [Upload, hL]
    | some bs2 =>
      by_cases h1 : s ∈ w.localOpenErr
      · simp [Upload, hL, h1]
      · by_cases h2 : (⟨b, d⟩ : Key) ∈ w.writeErr
        · simp [Upload, hL, h1, h2]
        · by_cases h3 : (⟨b, d⟩ : Key) ∈ w.writerCloseErr <;>
            simp [Upload, hL, h1, h2, h3]
  · intro hL h1 h2 h3
    simp [Upload, hL, h1, h2, h3]

/-- C8 witness: in a world whose writer close fails for b/p, uploading the
local file "s" still returns success. -/
theorem gcs_C8_witness :
    (Upload wFlushFail ("b".data) ("p".data) ("s".data)).1 = Res.ok () :=
  (gcs_C8 wFlushFail ("b".data) ("p".data) ("s".data) [3]).2
    (by decide) (by decide) (by decide) (by decide)

/-- C9: a genuinely successful Upload of a local file to (bucket, path)
followed by Read of the same (bucket, path), with no faults injected for
that key, returns exactly the uploaded bytes. -/
theorem gcs_C9 (w : World) (b p s : Str) (bs : Bytes)
    (hfile : lookupS w.localFiles s = some bs) (h1 : s ∉ w.localOpenErr)
    (h2 : (⟨b, p⟩ : Key) ∉ w.writeErr) (h3 : (⟨b, p⟩ : Key) ∉ w.writerCloseErr)
    (h4 : (⟨b, p⟩ : Key) ∉ w.attrsErr) (h5 : (⟨b, p⟩ : Key) ∉ w.readerErr)
    (h6 : (⟨b, p⟩ : Key) ∉ w.readErr) :
    (Upload w b p s).1 = Res.ok ()
    ∧ (Read (Upload w b p s).2.1 b p).1 = Res.ok bs := by
  have hup : Upload w b p s
      = (.ok (), { w with objects := (⟨b, p⟩, bs) :: w.objects },
         [Event.openLocal s, Event.openWriter ⟨b, p⟩, Event.closeWriter ⟨b, p⟩]) := by
    simp [Upload, hfile, h1, h2, h3]
  rw [hup]
  refine ⟨rfl, ?_⟩
  have hAttrs : attrs { w with objects := (⟨b, p⟩, bs) :: w.objects } ⟨b, p⟩ = .ok () := by
    simp [attrs, h4, lookupK]
  have hReadAll : readAll { w with objects := (⟨b, p⟩, bs) :: w.objects } ⟨b, p⟩ = .ok bs := by
    simp [readAll, h6, lookupK]
  simp [Read, NewReader, hAttrs, h5, hReadAll]

/-- C9 witness: uploading the one-byte local file "s" to b/p in a
fault-free world and reading b/p back yields that byte. -/
theorem gcs_C9_witness :
    (Read (Upload wLocS ("b".data) ("p".data) ("s".data)).2.1 ("b".data) ("p".data)).1
      = Res.ok [3] :=
  (gcs_C9 wLocS ("b".data) ("p".data) ("s".data) [3] (by decide) (by decide) (by decide)
    (by decide) (by decide) (by decide) (by decide)).2

/-- C10: the normalization strips trailing spaces and slashes in any
interleaving before appending the single trailing separator: "foo",
"foo/", "foo //" and "foo  " all produce query prefix "foo/", an input of
only spaces and slashes (including "") produces "/", and in general a path
with junk of spaces and slashes appended queries its clean part plus
"/". -/
theorem gcs_C10 :
    (ldcQueryPre ("foo".data) = ("foo/".data)
      ∧ ldcQueryPre ("foo/".data) = ("foo/".data)
      ∧ ldcQueryPre ("foo //".data) = ("foo/".data)
      ∧ ldcQueryPre ("foo  ".data) = ("foo/".data)
      ∧ ldcQueryPre [] = ['/'])
    ∧ (∀ p junk : Str, (∀ c ∈ junk, c = ' ' ∨ c = '/') →
        (∀ c, p.getLast? = some c → ¬(c = ' ' ∨ c = '/')) →
        ldcQueryPre (p ++ junk) = p ++ ['/'])
    ∧ (∀ p : Str, (∀ c ∈ p, c = ' ' ∨ c = '/') → ldcQueryPre p = ['/']) := by
  refine ⟨by decide, fun p junk hj hp => ldcQueryPre_strip p junk hj hp, ?_⟩
  intro p hall
  have h := ldcQueryPre_strip [] p hall (fun c hc => by simp at hc)
  simpa using h

/-- C10 witness: the general stripping statement applied to "a" with junk
" /". -/
theorem gcs_C10_witness :
    ldcQueryPre ("a /".data) = ("a".data) ++ ['/'] :=
  gcs_C10.2.1 ("a".data) (" /".data) (by decide)
    (fun c hc => by
      have h1 : (("a".data) : Str).getLast? = some 'a' := by decide
      rw [h1] at hc
      injection hc with h2
      subst h2
      decide)

end Gcs
